import Mathlib

/-!
Verification development for a small Google Drive / Google Sheets
automation repository.  The Python sources are shallowly embedded:

* pure string manipulation (name normalization, path splitting, range
  parsing) is translated to executable Lean functions on `String` /
  `List Char`;
* the Drive service is modelled as an explicit `DriveState` (a list of
  file records plus a fresh-id counter); listing/getting/creating files
  become pure functions on that state;
* Python exceptions (`ValueError`, HTTP 404, unpack errors) become
  `Except String _` results; `None` becomes `Option`.

Page-size limits of the list calls (the scripts never paginate and
assume one page suffices) are not modelled: a listing returns every
matching record.
-/

/-- Whitespace recognizer matching what Python `str.split()` / `str.strip()`
treat as whitespace (ASCII whitespace plus the Unicode space separators,
including the non-breaking space U+00A0). -/
def pyIsSpace (c : Char) : Bool :=
  c = ' ' || c = '\t' || c = '\n' || c = '\r' || c = '\x0b' || c = '\x0c' ||
  c = '\x1c' || c = '\x1d' || c = '\x1e' || c = '\x1f' || c = '\x85' ||
  c = '\u00A0' || c = '\u1680' || ('\u2000' ≤ c && c ≤ '\u200A') ||
  c = '\u2028' || c = '\u2029' || c = '\u202F' || c = '\u205F' || c = '\u3000'

/-- Embedding of Python `s.strip()` on a character list: drop whitespace
from both ends. -/
def pyStripL (l : List Char) : List Char :=
  ((l.dropWhile pyIsSpace).reverse.dropWhile pyIsSpace).reverse

/-- Embedding of Python `s.strip()` on strings. -/
def pyStrip (s : String) : String :=
  ⟨pyStripL s.data⟩

/-- Embedding of Python `s.lower()` (the data handled by the scripts is
ASCII, where `Char.toLower` agrees with Python). -/
def pyLower (s : String) : String :=
  ⟨s.data.map Char.toLower⟩

/-- Accumulator worker for `pySplitWs`. -/
def pySplitWsAux : List Char → List Char → List (List Char)
  | [], acc => if acc.isEmpty then [] else [acc.reverse]
  | c :: cs, acc =>
    if pyIsSpace c then
      if acc.isEmpty then pySplitWsAux cs [] else acc.reverse :: pySplitWsAux cs []
    else pySplitWsAux cs (c :: acc)

/-- Embedding of Python `s.split()` with no separator argument: split on
runs of whitespace, discarding empty pieces. -/
def pySplitWs (l : List Char) : List (List Char) :=
  pySplitWsAux l []

/-- Embedding of `_normalize_name` from `upload-to-drive.py`:
`" ".join(s.split()).strip().lower()`. -/
def _normalize_name (s : String) : String :=
  pyLower ⟨pyStripL (List.intercalate [' '] (pySplitWs s.data))⟩

/-- C4: the name-normalization function maps `"1415  Meridian"` (double
space), `"1415 Meridian "` (trailing space) and `"1415\u00A0Meridian"`
(non-breaking space) to the identical key `"1415 meridian"`, so the three
spellings all match each other under normalized comparison. -/
theorem normalize_name_identifies_variants :
    _normalize_name "1415  Meridian" = _normalize_name "1415 Meridian " ∧
    _normalize_name "1415 Meridian " = _normalize_name "1415\u00A0Meridian" ∧
    _normalize_name "1415\u00A0Meridian" = _normalize_name "1415  Meridian" ∧
    _normalize_name "1415  Meridian" = "1415 meridian" := by
  refine ⟨?_, ?_, ?_, ?_⟩ <;> decide

/-! ## Drive data model -/

/-- MIME type of a Drive folder. -/
def folderMime : String := "application/vnd.google-apps.folder"

/-- MIME type of a Drive shortcut. -/
def shortcutMime : String := "application/vnd.google-apps.shortcut"

/-- A Drive file record, carrying the fields the scripts project in their
`files().list` / `files().get` calls (`id, name, mimeType, parents,
trashed, shortcutDetails.targetId`). -/
structure DriveFile where
  id : String
  name : String
  mimeType : String
  parents : List String
  trashed : Bool
  shortcutTarget : Option String
deriving DecidableEq, Repr

/-- The Drive service state: the stored files plus a counter used to mint
fresh identifiers for newly created folders. -/
structure DriveState where
  files : List DriveFile
  nextId : Nat
deriving DecidableEq, Repr

/-- Identifier minted for the `n`-th folder created by the model (the real
service assigns opaque ids; the model uses strings of `#` so that
freshness is expressible as "no stored id or parent starts with `#`"). -/
def newId (n : Nat) : String :=
  ⟨'#' :: List.replicate n '#'⟩

/-- Whether a string could collide with a minted identifier. -/
def looksMinted (s : String) : Bool :=
  s.data.head? = some '#'

/-- Embedding of `service.files().get(fileId=...)`: look a record up by
identifier. -/
def getFile (st : DriveState) (fileId : String) : Option DriveFile :=
  st.files.find? (fun f => f.id = fileId)

/-- Embedding of `_list_child_folders_and_shortcuts` from
`upload-to-drive.py`: the non-trashed direct children of `parent_id`
whose MIME type is folder or shortcut. -/
def _list_child_folders_and_shortcuts (st : DriveState) (parent_id : String) :
    List DriveFile :=
  st.files.filter (fun f =>
    decide (parent_id ∈ f.parents) && !f.trashed &&
    (f.mimeType == folderMime || f.mimeType == shortcutMime))

/-- Scanning loop of `find_existing_folder_in_parent`: walk the children,
skip names that do not normalize to the target, return a matching folder
id, dereference a matching shortcut one hop (a dangling target id makes
the `files().get` call fail, modelled as `Except.error`). -/
def resolveChildren (st : DriveState) (targetNorm : String) :
    List DriveFile → Except String (Option String)
  | [] => .ok none
  | item :: rest =>
    if _normalize_name item.name ≠ targetNorm then
      resolveChildren st targetNorm rest
    else if item.mimeType = folderMime then
      .ok (some item.id)
    else if item.mimeType = shortcutMime then
      match item.shortcutTarget with
      | some tid =>
        if tid = "" then resolveChildren st targetNorm rest
        else
          match getFile st tid with
          | none => .error ("404 file not found: " ++ tid)
          | some target =>
            if target.mimeType = folderMime then .ok (some tid)
            else resolveChildren st targetNorm rest
      | none => resolveChildren st targetNorm rest
    else
      resolveChildren st targetNorm rest

/-- Embedding of `find_existing_folder_in_parent` from
`upload-to-drive.py`. -/
def find_existing_folder_in_parent (st : DriveState) (name : String)
    (parent_id : String) : Except String (Option String) :=
  resolveChildren st (_normalize_name name)
    (_list_child_folders_and_shortcuts st parent_id)

/-- Embedding of `create_folder_in_parent` from `upload-to-drive.py`:
append a fresh folder record with the literal requested name and return
the new state together with the minted identifier. -/
def create_folder_in_parent (st : DriveState) (name : String)
    (parent_id : String) : DriveState × String :=
  (⟨st.files ++
      [⟨newId st.nextId, name, folderMime, [parent_id], false, none⟩],
    st.nextId + 1⟩,
   newId st.nextId)

/-! ## Path splitting -/

/-- Splitting on a single-character separator, with Python `str.split(sep)`
semantics (an empty input yields one empty piece, adjacent separators
yield empty pieces). -/
def splitOnChar (sep : Char) : List Char → List (List Char)
  | [] => [[]]
  | c :: cs =>
    if c = sep then [] :: splitOnChar sep cs
    else
      match splitOnChar sep cs with
      | [] => [[c]]
      | l :: ls => (c :: l) :: ls

/-- Path splitting of `ensure_folder_path`:
`[p for p in folder_path.replace("\\", "/").split("/") if p.strip()]`
(backslashes unified to slashes, pieces kept literal, whitespace-only
pieces dropped). -/
def splitPath (folder_path : String) : List String :=
  ((splitOnChar '/'
      (folder_path.data.map (fun c => if c = '\\' then '/' else c))).filter
    (fun l => !(pyStripL l).isEmpty)).map (fun l => ⟨l⟩)

/-- Walking loop of `ensure_folder_path`: for each part, reuse an existing
match or create a missing folder, threading the state. -/
def ensureWalk : DriveState → List String → String →
    Except String (DriveState × String)
  | st, [], parent_id => .ok (st, parent_id)
  | st, part :: rest, parent_id =>
    match find_existing_folder_in_parent st part parent_id with
    | .error e => .error e
    | .ok (some existing_id) => ensureWalk st rest existing_id
    | .ok none =>
      let created := create_folder_in_parent st part parent_id
      ensureWalk created.1 rest created.2

/-- Embedding of `ensure_folder_path` from `upload-to-drive.py`: split the
path, then walk from the `"root"` anchor, returning the final state and
the identifier of the last segment. -/
def ensure_folder_path (st : DriveState) (folder_path : String) :
    Except String (DriveState × String) :=
  ensureWalk st (splitPath folder_path) "root"

/-! ## find_folder_by_path (google_drive_find_folder.py) -/

/-- Embedding of `_search_folder_under_parent` from
`google_drive_find_folder.py`: query the non-trashed folders named
exactly `name` (the script only escapes quotes for query syntax; the
match itself is exact) under `parent_id` and pick the first. -/
def _search_folder_under_parent (st : DriveState) (name : String)
    (parent_id : String) : Option DriveFile :=
  (st.files.filter (fun f =>
    f.name == name && f.mimeType == folderMime &&
    decide (parent_id ∈ f.parents) && !f.trashed)).head?

/-- Component splitting of `find_folder_by_path`:
`[c.strip() for c in folder_path.split("/") if c.strip()]`. -/
def findComponents (folder_path : String) : List String :=
  ((splitOnChar '/' folder_path.data).map (fun l => pyStripL l)).filterMap
    (fun l => if l.isEmpty then none else some ⟨l⟩)

/-- Walking loop of `find_folder_by_path`: resolve each component under
the previous parent, failing with `none` on the first miss. -/
def findWalk : DriveState → List String → String → Option String
  | _, [], parent_id => some parent_id
  | st, name :: rest, parent_id =>
    match _search_folder_under_parent st name parent_id with
    | none => none
    | some f => findWalk st rest f.id

/-- Embedding of `find_folder_by_path` from `google_drive_find_folder.py`:
split and strip the components, optionally drop a leading `"My Drive"` /
`"MyDrive"`, then walk from `"root"`. -/
def find_folder_by_path (st : DriveState) (folder_path : String) :
    Option String :=
  match findComponents folder_path with
  | [] => none
  | c :: rest =>
    let components :=
      if pyLower c = "my drive" ∨ pyLower c = "mydrive" then rest
      else c :: rest
    match components with
    | [] => none
    | _ => findWalk st components "root"

/-- C9: a folder-path string with no non-whitespace segment resolves to
the `"root"` anchor itself, with the Drive state unchanged (no folder is
created), so an upload with such a path lands directly in the drive
root. -/
theorem ensure_folder_path_empty_returns_root (st : DriveState)
    (folder_path : String) (h : splitPath folder_path = []) :
    ensure_folder_path st folder_path = .ok (st, "root") := by
  simp [ensure_folder_path, h, ensureWalk]

/-- Witness for C9 at the concrete paths `""`, `"/"` and `" / "`. -/
theorem ensure_folder_path_empty_returns_root_witness :
    ensure_folder_path ⟨[], 0⟩ "" = .ok (⟨[], 0⟩, "root") ∧
    ensure_folder_path ⟨[], 0⟩ "/" = .ok (⟨[], 0⟩, "root") ∧
    ensure_folder_path ⟨[], 0⟩ " / " = .ok (⟨[], 0⟩, "root") :=
  ⟨ensure_folder_path_empty_returns_root _ _ (by decide),
   ensure_folder_path_empty_returns_root _ _ (by decide),
   ensure_folder_path_empty_returns_root _ _ (by decide)⟩

/-! ## Creation-suffix analysis of ensure_folder_path (C2) -/

/-- Minted identifiers are pairwise distinct. -/
theorem newId_inj {m n : Nat} (h : newId m = newId n) : m = n := by
  have h2 := congrArg (fun s : String => s.data.length) h
  simp [newId] at h2
  exact h2

/-- A string that does not look minted differs from every minted
identifier. -/
theorem ne_newId_of_not_minted {s : String} (h : looksMinted s = false)
    (n : Nat) : s ≠ newId n := by
  intro he
  subst he
  simp [looksMinted, newId] at h

/-- The folder records `ensure_folder_path` creates for a missing suffix:
one per remaining segment, each carrying the literal segment name,
parented under the identifier of the previous step, with consecutively
minted identifiers. -/
def createdChain : String → Nat → List String → List DriveFile
  | _, _, [] => []
  | parent_id, n, part :: rest =>
    ⟨newId n, part, folderMime, [parent_id], false, none⟩ ::
      createdChain (newId n) (n + 1) rest

/-- Identifier of the last element of a creation chain (the starting
parent when no segment remains). -/
def chainLast : String → Nat → List String → String
  | parent_id, _, [] => parent_id
  | _, n, _ :: rest => chainLast (newId n) (n + 1) rest

/-- Under a parent with no children, the walk of `ensure_folder_path`
creates every remaining segment, in order, and ends on the last minted
identifier.  The last two hypotheses keep stored parents and the current
parent clear of the identifiers about to be minted. -/
theorem ensureWalk_create :
    ∀ (parts : List String) (st : DriveState) (parent : String),
      (∀ f ∈ st.files, parent ∉ f.parents) →
      (∀ f ∈ st.files, ∀ q ∈ f.parents, ∀ n, st.nextId ≤ n → q ≠ newId n) →
      (∀ n, st.nextId ≤ n → parent ≠ newId n) →
      ensureWalk st parts parent =
        .ok (⟨st.files ++ createdChain parent st.nextId parts,
              st.nextId + parts.length⟩,
             chainLast parent st.nextId parts)
  | [], st, parent, _, _, _ => by
    cases st
    simp [ensureWalk, createdChain, chainLast]
  | part :: rest, st, parent, hnc, hfr, hpar => by
    have hchild : _list_child_folders_and_shortcuts st parent = [] := by
      simp only [_list_child_folders_and_shortcuts, List.filter_eq_nil_iff]
      intro f hf
      simp [hnc f hf]
    have hfind : find_existing_folder_in_parent st part parent = .ok none := by
      simp [find_existing_folder_in_parent, hchild, resolveChildren]
    have hstep :
        ensureWalk st (part :: rest) parent =
          ensureWalk
            ⟨st.files ++ [⟨newId st.nextId, part, folderMime, [parent], false, none⟩],
             st.nextId + 1⟩
            rest (newId st.nextId) := by
      simp [ensureWalk, hfind, create_folder_in_parent]
    rw [hstep, ensureWalk_create rest _ (newId st.nextId)
      (by
        intro f hf
        simp only [List.mem_append, List.mem_singleton] at hf
        rcases hf with hf | hf
        · exact fun hmem =>
            hfr f hf _ hmem st.nextId (Nat.le_refl _) rfl
        · subst hf
          simp only [List.mem_singleton]
          exact fun hmem => hpar st.nextId (Nat.le_refl _) hmem.symm)
      (by
        intro f hf q hq n hn
        simp only [List.mem_append, List.mem_singleton] at hf
        rcases hf with hf | hf
        · exact hfr f hf q hq n (Nat.le_of_succ_le hn)
        · subst hf
          simp only [List.mem_singleton] at hq
          subst hq
          exact hpar n (Nat.le_of_succ_le hn))
      (by
        intro n hn he
        have h2 := newId_inj he
        dsimp only at hn
        omega)]
    simp only [createdChain, chainLast, List.append_assoc, List.singleton_append,
      List.length_cons]
    have harith : st.nextId + 1 + rest.length = st.nextId + (rest.length + 1) := by
      omega
    rw [harith]

/-- Resolution of a segment list without creation: iterate
`find_existing_folder_in_parent`, succeeding only when every segment
resolves (this is the walk of `ensure_folder_path` restricted to its
reuse branch). -/
def resolveSeq (st : DriveState) : String → List String → Option String
  | parent_id, [] => some parent_id
  | parent_id, part :: rest =>
    match find_existing_folder_in_parent st part parent_id with
    | .ok (some existing_id) => resolveSeq st existing_id rest
    | .ok none => none
    | .error _ => none

/-- A fully resolving prefix leaves the state untouched and moves the
walk to the resolved identifier. -/
theorem ensureWalk_of_resolveSeq (st : DriveState) :
    ∀ (parts1 : List String) (parent q : String) (l : List String),
      resolveSeq st parent parts1 = some q →
      ensureWalk st (parts1 ++ l) parent = ensureWalk st l q
  | [], parent, q, l, h => by
    simp [resolveSeq] at h
    subst h
    rfl
  | part :: rest, parent, q, l, h => by
    rcases hfe : find_existing_folder_in_parent st part parent with e | v
    · simp [resolveSeq, hfe] at h
    · cases v with
      | none => simp [resolveSeq, hfe] at h
      | some existing_id =>
        simp only [resolveSeq, hfe] at h
        simpa [ensureWalk, hfe] using
          ensureWalk_of_resolveSeq st rest existing_id q l h

/-- C2: when the first K segments of a path resolve to existing folders
(by normalized-name match, shortcuts included) ending at `parent`, and
the next segment does not resolve there, `ensure_folder_path` creates
exactly one folder per missing segment — each holding the literal
segment name, parented under the identifier resolved or created for the
previous segment, in left-to-right order — and returns the identifier of
the last created folder.  The two `looksMinted` hypotheses say that no
stored parent reference (nor the resolved anchor) collides with the
identifiers the model mints. -/
theorem ensure_folder_path_creates_suffix
    (st : DriveState) (folder_path : String) (parts1 : List String)
    (part : String) (parts2 : List String) (parent : String)
    (hsplit : splitPath folder_path = parts1 ++ part :: parts2)
    (hres : resolveSeq st "root" parts1 = some parent)
    (hfail : find_existing_folder_in_parent st part parent = .ok none)
    (hfresh : ∀ f ∈ st.files, ∀ q ∈ f.parents, looksMinted q = false)
    (hpar : looksMinted parent = false) :
    ensure_folder_path st folder_path =
      .ok (⟨st.files ++ createdChain parent st.nextId (part :: parts2),
            st.nextId + (parts2.length + 1)⟩,
           chainLast parent st.nextId (part :: parts2)) := by
  rw [ensure_folder_path, hsplit,
    ensureWalk_of_resolveSeq st parts1 "root" parent (part :: parts2) hres]
  have hstep :
      ensureWalk st (part :: parts2) parent =
        ensureWalk
          ⟨st.files ++ [⟨newId st.nextId, part, folderMime, [parent], false, none⟩],
           st.nextId + 1⟩
          parts2 (newId st.nextId) := by
    simp [ensureWalk, hfail, create_folder_in_parent]
  rw [hstep, ensureWalk_create parts2 _ (newId st.nextId)
    (by
      intro f hf
      simp only [List.mem_append, List.mem_singleton] at hf
      rcases hf with hf | hf
      · exact fun hmem =>
          ne_newId_of_not_minted (hfresh f hf _ hmem) st.nextId rfl
      · subst hf
        simp only [List.mem_singleton]
        exact fun hmem =>
          ne_newId_of_not_minted hpar st.nextId hmem.symm)
    (by
      intro f hf q hq n hn
      simp only [List.mem_append, List.mem_singleton] at hf
      rcases hf with hf | hf
      · exact ne_newId_of_not_minted (hfresh f hf q hq) n
      · subst hf
        simp only [List.mem_singleton] at hq
        subst hq
        exact ne_newId_of_not_minted hpar n)
    (by
      intro n hn he
      have h2 := newId_inj he
      dsimp only at hn
      omega)]
  simp only [createdChain, chainLast, List.append_assoc, List.singleton_append,
    List.length_cons]
  have harith : st.nextId + 1 + parts2.length = st.nextId + (parts2.length + 1) := by
    omega
  rw [harith]

/-- Concrete Drive state for the C2 witness: a single existing folder
`"1415 Meridian"` under the root. -/
def sampleDriveC2 : DriveState :=
  ⟨[⟨"fA", "1415 Meridian", folderMime, ["root"], false, none⟩], 0⟩

/-- Witness for C2: `"1415 Meridian"` resolves to the existing folder
`"fA"`, and the two missing segments `"Receipts"` and `"2025"` are
created in order under it. -/
theorem ensure_folder_path_creates_suffix_witness :
    ensure_folder_path sampleDriveC2 "1415 Meridian/Receipts/2025" =
      .ok (⟨sampleDriveC2.files ++
              createdChain "fA" sampleDriveC2.nextId ["Receipts", "2025"],
            sampleDriveC2.nextId + (1 + 1)⟩,
           chainLast "fA" sampleDriveC2.nextId ["Receipts", "2025"]) :=
  ensure_folder_path_creates_suffix sampleDriveC2 "1415 Meridian/Receipts/2025"
    ["1415 Meridian"] "Receipts" ["2025"] "fA"
    (by decide) (by decide) (by rfl) (by decide) (by decide)

/-! ## Agreement of ensure_folder_path and find_folder_by_path (C5) -/

/-- If filtering keeps exactly `a`, any stronger filter that still accepts
`a` also keeps exactly `a`. -/
theorem filter_singleton_of_imp {α : Type} (q q' : α → Bool) :
    ∀ (l : List α) (a : α), l.filter q = [a] →
      (∀ x, q' x = true → q x = true) → q' a = true →
      l.filter q' = [a]
  | [], a, h, _, _ => by simp at h
  | x :: xs, a, h, himp, ha => by
    cases hq'x : q' x with
    | true =>
      have hqx : q x = true := himp x hq'x
      rw [List.filter_cons_of_pos hqx] at h
      have hx : x = a := by
        have := congrArg (fun l => l.head?) h
        simpa using this
      have htail : xs.filter q = [] := by
        have := congrArg (fun l => l.tail) h
        simpa using this
      rw [List.filter_cons_of_pos hq'x, hx]
      have : xs.filter q' = [] := by
        rw [List.filter_eq_nil_iff] at htail ⊢
        exact fun y hy hq'y => htail y hy (himp y hq'y)
      rw [this]
    | false =>
      cases hqx : q x with
      | true =>
        rw [List.filter_cons_of_pos hqx] at h
        have hx : x = a := by
          have := congrArg (fun l => l.head?) h
          simpa using this
        rw [hx] at hq'x
        rw [ha] at hq'x
        exact absurd hq'x (by simp)
      | false =>
        rw [List.filter_cons_of_neg (by simp [hqx])] at h
        rw [List.filter_cons_of_neg (by simp [hq'x])]
        exact filter_singleton_of_imp q q' xs a h himp ha

/-- When the unique normalized match among the listed children is a
folder, the scanning loop returns exactly its identifier. -/
theorem resolveChildren_of_filter (st : DriveState) (targetNorm : String) :
    ∀ (l : List DriveFile) (f : DriveFile),
      l.filter (fun g => _normalize_name g.name == targetNorm) = [f] →
      f.mimeType = folderMime →
      resolveChildren st targetNorm l = .ok (some f.id)
  | [], f, h, _ => by simp at h
  | g :: gs, f, h, hfold => by
    by_cases hn : _normalize_name g.name = targetNorm
    · rw [List.filter_cons_of_pos (by simp [hn])] at h
      have hg : g = f := by
        have := congrArg (fun l => l.head?) h
        simpa using this
      subst hg
      rw [resolveChildren]
      simp [hn, hfold]
    · rw [List.filter_cons_of_neg (by simp [hn])] at h
      rw [resolveChildren]
      simp only [if_pos hn]
      exact resolveChildren_of_filter st targetNorm gs f h hfold

/-- Exact-agreement precondition for a segment list: under each resolved
parent there is exactly one child (among the listed folders and
shortcuts) whose normalized name matches the segment, and that child is
a folder whose literal name equals the segment. -/
def exactWalkB (st : DriveState) : List String → String → Bool
  | [], _ => true
  | part :: rest, parent_id =>
    match (_list_child_folders_and_shortcuts st parent_id).filter
        (fun g => _normalize_name g.name == _normalize_name part) with
    | [f] => f.mimeType == folderMime && f.name == part && exactWalkB st rest f.id
    | _ => false

/-- Under the exact-agreement precondition both walks agree segment by
segment: the creating walk never creates and the query walk never
misses, and they end on the same identifier. -/
theorem walks_agree (st : DriveState) :
    ∀ (parts : List String) (parent_id : String),
      exactWalkB st parts parent_id = true →
      ∃ fid, ensureWalk st parts parent_id = .ok (st, fid) ∧
        findWalk st parts parent_id = some fid
  | [], parent_id, _ => ⟨parent_id, rfl, rfl⟩
  | part :: rest, parent_id, h => by
    rw [exactWalkB] at h
    split at h
    case h_2 => exact absurd h (by simp)
    case h_1 f heq =>
      simp only [Bool.and_eq_true, beq_iff_eq] at h
      obtain ⟨⟨hfold, hname⟩, hrest⟩ := h
      obtain ⟨fid, h1, h2⟩ := walks_agree st rest f.id hrest
      have hfe : find_existing_folder_in_parent st part parent_id =
          .ok (some f.id) := by
        rw [find_existing_folder_in_parent]
        exact resolveChildren_of_filter st _ _ f heq hfold
      have hmemf : f ∈ _list_child_folders_and_shortcuts st parent_id := by
        have : f ∈ (_list_child_folders_and_shortcuts st parent_id).filter
            (fun g => _normalize_name g.name == _normalize_name part) := by
          rw [heq]; exact List.mem_singleton.mpr rfl
        exact (List.mem_filter.mp this).1
      have hchildf := (List.mem_filter.mp hmemf).2
      simp only [Bool.and_eq_true, Bool.or_eq_true, beq_iff_eq,
        decide_eq_true_eq, Bool.not_eq_true'] at hchildf
      have hsearch : _search_folder_under_parent st part parent_id = some f := by
        have hcomb : st.files.filter (fun g =>
            (_normalize_name g.name == _normalize_name part) &&
            (decide (parent_id ∈ g.parents) && !g.trashed &&
              (g.mimeType == folderMime || g.mimeType == shortcutMime))) = [f] := by
          rw [← List.filter_filter]
          exact heq
        have hsing := filter_singleton_of_imp _
          (fun g => g.name == part && g.mimeType == folderMime &&
            decide (parent_id ∈ g.parents) && !g.trashed)
          st.files f hcomb
          (by
            intro x hx
            simp only [Bool.and_eq_true, beq_iff_eq, decide_eq_true_eq,
              Bool.not_eq_true'] at hx
            obtain ⟨⟨⟨hxn, hxm⟩, hxp⟩, hxt⟩ := hx
            simp [hxn, hxm, hxp, hxt])
          (by
            simp only [Bool.and_eq_true, beq_iff_eq, decide_eq_true_eq,
              Bool.not_eq_true']
            exact ⟨⟨⟨hname, hfold⟩, hchildf.1.1⟩, hchildf.1.2⟩)
        rw [_search_folder_under_parent, hsing]
        rfl
      refine ⟨fid, ?_, ?_⟩
      · rw [ensureWalk, hfe]
        exact h1
      · rw [findWalk, hsearch]
        exact h2

/-- C5 (amended): for a path that both functions split into the same
non-empty segment list, whose first segment is not a `"My Drive"` /
`"MyDrive"` alias, and where each segment has exactly one
normalized-name match under the resolved parent — that match being a
folder whose literal name equals the segment — `ensure_folder_path`
returns the same final identifier as `find_folder_by_path` and creates
zero new folders (the state is returned unchanged). -/
theorem ensure_find_agree_when_all_exist
    (st : DriveState) (folder_path : String) (part : String)
    (rest : List String)
    (hsplitE : splitPath folder_path = part :: rest)
    (hsplitF : findComponents folder_path = part :: rest)
    (hmd1 : pyLower part ≠ "my drive")
    (hmd2 : pyLower part ≠ "mydrive")
    (hwalk : exactWalkB st (part :: rest) "root" = true) :
    ∃ fid, ensure_folder_path st folder_path = .ok (st, fid) ∧
      find_folder_by_path st folder_path = some fid := by
  obtain ⟨fid, h1, h2⟩ := walks_agree st (part :: rest) "root" hwalk
  refine ⟨fid, ?_, ?_⟩
  · rw [ensure_folder_path, hsplitE]
    exact h1
  · simp only [find_folder_by_path, hsplitF]
    rw [if_neg (by
      intro hor
      rcases hor with hmd | hmd
      · exact hmd1 hmd
      · exact hmd2 hmd)]
    exact h2

/-- Concrete Drive state for the C5 witness: `"Reports"` under the root
and `"Q3"` under `"Reports"`. -/
def sampleDriveC5 : DriveState :=
  ⟨[⟨"r1", "Reports", folderMime, ["root"], false, none⟩,
    ⟨"q1", "Q3", folderMime, ["r1"], false, none⟩], 0⟩

/-- Witness for the amended C5 at the fully existing path
`"Reports/Q3"`. -/
theorem ensure_find_agree_when_all_exist_witness :
    ∃ fid, ensure_folder_path sampleDriveC5 "Reports/Q3" =
        .ok (sampleDriveC5, fid) ∧
      find_folder_by_path sampleDriveC5 "Reports/Q3" = some fid :=
  ensure_find_agree_when_all_exist sampleDriveC5 "Reports/Q3" "Reports" ["Q3"]
    (by decide) (by decide) (by decide) (by decide) (by decide)

/-- Concrete Drive state refuting C5 as stated: a folder literally named
`"My Drive"` exists under the root. -/
def myDriveState : DriveState :=
  ⟨[⟨"fMD", "My Drive", folderMime, ["root"], false, none⟩], 0⟩

/-- Counterexample to C5 as stated: for the one-segment path
`"My Drive"`, the segment exists as a folder under the root (even
exactly and uniquely, per `exactWalkB`), and `ensure_folder_path`
resolves it to `"fMD"` without creating anything — but
`find_folder_by_path` strips the leading `"My Drive"` alias, finds the
path empty, and returns `none`, so the two functions do not produce the
same identifier. -/
theorem ensure_find_disagree_on_my_drive :
    exactWalkB myDriveState ["My Drive"] "root" = true ∧
    splitPath "My Drive" = ["My Drive"] ∧
    findComponents "My Drive" = ["My Drive"] ∧
    ensure_folder_path myDriveState "My Drive" = .ok (myDriveState, "fMD") ∧
    find_folder_by_path myDriveState "My Drive" = none :=
  ⟨by decide, by decide, by decide, by rfl, by rfl⟩

/-! ## find_document_id (google_drive_find_document.py) -/

/-- Effective identifier of a listed item, as computed inside the loop of
`find_document_id`: a shortcut is mapped one hop to
`shortcutDetails.targetId`, falling back to the shortcut's own
identifier when that target id is missing or empty (Python truthiness of
`real_id`); every other item keeps its own identifier. -/
def effectiveId (f : DriveFile) : String :=
  if f.mimeType = shortcutMime then
    match f.shortcutTarget with
    | some tid => if tid = "" then f.id else tid
    | none => f.id
  else f.id

/-- The deduplicating loop of `find_document_id`: `seen` is the set of
effective identifiers already encountered, `first` the first effective
identifier remembered.  Returns the list of effective identifiers kept
(one `Found:` line each) together with the final `first_real_id`. -/
def findDocLoop : List DriveFile → List String → Option String →
    List String × Option String
  | [], _, first => ([], first)
  | f :: rest, seen, first =>
    let real_id := effectiveId f
    if real_id ∈ seen then
      findDocLoop rest seen first
    else
      let r := findDocLoop rest (real_id :: seen)
        (match first with
         | none => some real_id
         | some x => some x)
      (real_id :: r.1, r.2)

/-- Embedding of `find_document_id` from `google_drive_find_document.py`
applied to the query's result list: the kept (deduplicated) effective
identifiers, in order, and the returned first effective identifier
(`none` models the early `return None` on an empty result list). -/
def findDocRun (files : List DriveFile) : List String × Option String :=
  match files with
  | [] => ([], none)
  | _ => findDocLoop files [] none

/-- Return value of `find_document_id`: the first effective identifier,
or `none` when nothing was listed. -/
def find_document_id (files : List DriveFile) : Option String :=
  (findDocRun files).2

/-- Unfolding of the deduplicating loop on a cons cell. -/
theorem findDocLoop_cons (f : DriveFile) (rest : List DriveFile)
    (seen : List String) (first : Option String) :
    findDocLoop (f :: rest) seen first =
      if effectiveId f ∈ seen then findDocLoop rest seen first
      else
        ((effectiveId f) ::
           (findDocLoop rest (effectiveId f :: seen)
             (match first with
              | none => some (effectiveId f)
              | some x => some x)).1,
         (findDocLoop rest (effectiveId f :: seen)
           (match first with
            | none => some (effectiveId f)
            | some x => some x)).2) := rfl

/-- Membership in the kept list: exactly the effective identifiers of the
input that were not already seen. -/
theorem findDocLoop_mem :
    ∀ (files : List DriveFile) (seen : List String) (first : Option String)
      (x : String),
      x ∈ (findDocLoop files seen first).1 ↔
        x ∈ files.map effectiveId ∧ x ∉ seen
  | [], seen, first, x => by simp [findDocLoop]
  | f :: rest, seen, first, x => by
    by_cases hseen : effectiveId f ∈ seen
    · rw [findDocLoop_cons]
      simp only [if_pos hseen]
      rw [findDocLoop_mem rest seen first x]
      simp only [List.map_cons, List.mem_cons]
      constructor
      · exact fun ⟨h1, h2⟩ => ⟨Or.inr h1, h2⟩
      · rintro ⟨h1 | h1, h2⟩
        · subst h1
          exact absurd hseen h2
        · exact ⟨h1, h2⟩
    · rw [findDocLoop_cons]
      simp only [if_neg hseen, List.mem_cons]
      rw [findDocLoop_mem rest (effectiveId f :: seen) _ x]
      simp only [List.map_cons, List.mem_cons, List.mem_cons]
      constructor
      · rintro (h | ⟨h1, h2⟩)
        · subst h
          exact ⟨Or.inl rfl, hseen⟩
        · exact ⟨Or.inr h1, fun hx => h2 (Or.inr hx)⟩
      · rintro ⟨h1 | h1, h2⟩
        · exact Or.inl h1
        · by_cases hx : x = effectiveId f
          · exact Or.inl hx
          · exact Or.inr ⟨h1, fun hc => by
              rcases hc with hc | hc
              · exact hx hc
              · exact h2 hc⟩

/-- The kept list is a subsequence of the effective identifiers, in
first-seen order. -/
theorem findDocLoop_sublist :
    ∀ (files : List DriveFile) (seen : List String) (first : Option String),
      (findDocLoop files seen first).1.Sublist (files.map effectiveId)
  | [], _, _ => by simp [findDocLoop]
  | f :: rest, seen, first => by
    by_cases hseen : effectiveId f ∈ seen
    · rw [findDocLoop_cons]
      simp only [if_pos hseen, List.map_cons]
      exact (findDocLoop_sublist rest seen first).cons _
    · rw [findDocLoop_cons]
      simp only [if_neg hseen, List.map_cons]
      exact (findDocLoop_sublist rest (effectiveId f :: seen) _).cons₂ _

/-- The kept list holds no duplicate effective identifier. -/
theorem findDocLoop_nodup :
    ∀ (files : List DriveFile) (seen : List String) (first : Option String),
      (findDocLoop files seen first).1.Nodup
  | [], _, _ => by simp [findDocLoop]
  | f :: rest, seen, first => by
    by_cases hseen : effectiveId f ∈ seen
    · rw [findDocLoop_cons]
      simp only [if_pos hseen]
      exact findDocLoop_nodup rest seen first
    · rw [findDocLoop_cons]
      simp only [if_neg hseen]
      refine List.nodup_cons.mpr ⟨?_, findDocLoop_nodup rest _ _⟩
      intro hmem
      have := (findDocLoop_mem rest (effectiveId f :: seen) _ _).mp hmem
      exact this.2 (List.mem_cons_self _ _)

/-- The returned identifier: the remembered one, or else the first
effective identifier not yet seen. -/
theorem findDocLoop_snd :
    ∀ (files : List DriveFile) (seen : List String) (first : Option String),
      (findDocLoop files seen first).2 =
        (match first with
         | some y => some y
         | none =>
           ((files.map effectiveId).filter (fun x => decide (x ∉ seen))).head?)
  | [], seen, first => by cases first <;> simp [findDocLoop]
  | f :: rest, seen, first => by
    by_cases hseen : effectiveId f ∈ seen
    · rw [findDocLoop_cons]
      simp only [if_pos hseen]
      rw [findDocLoop_snd rest seen first]
      cases first with
      | some y => rfl
      | none =>
        simp only [List.map_cons]
        rw [List.filter_cons_of_neg (by simp [hseen])]
    · rw [findDocLoop_cons]
      simp only [if_neg hseen]
      rw [findDocLoop_snd rest (effectiveId f :: seen) _]
      cases first with
      | some y => rfl
      | none =>
        simp only [List.map_cons]
        rw [List.filter_cons_of_pos (by simp [hseen])]
        rfl

/-- Result list for the C3 example: one real item and one shortcut
pointing at it, listed under the same name. -/
def docPairExample : List DriveFile :=
  [⟨"docA", "report.pdf", "application/pdf", [], false, none⟩,
   ⟨"scB", "report.pdf", shortcutMime, [], false, some "docA"⟩]

/-- C3: on any query result list, `find_document_id` maps each item to
its effective identifier (one-hop shortcut target, otherwise its own
id), keeps an order-preserving (`Sublist`), duplicate-free (`Nodup`)
selection covering every effective identifier, and returns the first
effective identifier; on the concrete real-item-plus-shortcut pair it
keeps and returns exactly one identifier, and on an empty result list it
returns `none` instead of raising. -/
theorem find_document_id_dedups (files : List DriveFile) :
    (findDocRun files).1.Sublist (files.map effectiveId) ∧
    (findDocRun files).1.Nodup ∧
    (∀ x, x ∈ (findDocRun files).1 ↔ x ∈ files.map effectiveId) ∧
    find_document_id files = (files.map effectiveId).head? ∧
    find_document_id [] = none ∧
    findDocRun docPairExample = (["docA"], some "docA") := by
  cases files with
  | nil =>
    refine ⟨?_, ?_, ?_, ?_, rfl, by decide⟩ <;>
      simp [findDocRun, find_document_id]
  | cons f rest =>
    have hrun : findDocRun (f :: rest) = findDocLoop (f :: rest) [] none := rfl
    refine ⟨?_, ?_, ?_, ?_, rfl, by decide⟩
    · rw [hrun]
      exact findDocLoop_sublist _ _ _
    · rw [hrun]
      exact findDocLoop_nodup _ _ _
    · intro x
      rw [hrun, findDocLoop_mem]
      simp
    · rw [find_document_id, hrun, findDocLoop_snd]
      simp

/-- C10: a listed shortcut whose shortcut details lack a target
identifier keeps its own identifier as effective identifier; listed
first, it is kept (not skipped) and its own identifier is the returned
result. -/
theorem shortcut_without_target_uses_own_id
    (f : DriveFile) (rest : List DriveFile)
    (hs : f.mimeType = shortcutMime)
    (ht : f.shortcutTarget = none) :
    effectiveId f = f.id ∧
    find_document_id (f :: rest) = some f.id ∧
    f.id ∈ (findDocRun (f :: rest)).1 := by
  have heff : effectiveId f = f.id := by simp [effectiveId, hs, ht]
  have hrun : findDocRun (f :: rest) = findDocLoop (f :: rest) [] none := rfl
  refine ⟨heff, ?_, ?_⟩
  · rw [find_document_id, hrun, findDocLoop_snd]
    simp [heff]
  · rw [hrun, findDocLoop_mem]
    simp [heff]

/-- Witness for C10: a concrete shortcut with no target id, alone in the
result list, is returned under its own identifier. -/
theorem shortcut_without_target_uses_own_id_witness :
    effectiveId ⟨"sc1", "orphan", shortcutMime, [], false, none⟩ = "sc1" ∧
    find_document_id [⟨"sc1", "orphan", shortcutMime, [], false, none⟩] =
      some "sc1" ∧
    "sc1" ∈ (findDocRun [⟨"sc1", "orphan", shortcutMime, [], false, none⟩]).1 :=
  shortcut_without_target_uses_own_id
    ⟨"sc1", "orphan", shortcutMime, [], false, none⟩ [] rfl rfl


/-! ## find_header_row_by_name (google_sheets_add_grouped_row.py) -/

/-- Cell text as compared by the header scan:
`cell.strip().lower()`. -/
def normCell (s : String) : String :=
  pyLower (pyStrip s)

/-- Scanning loop of `find_header_row_by_name` over the rows returned for
`A1:A1000`, carrying the 1-based row number (`enumerate(values, start=1)`).
An empty row (an empty cell of the single-column range is returned as an
empty row) is skipped by the `if row and ...` guard; exhaustion raises
`ValueError`, modelled as `Except.error`. -/
def headerScan (group_name sheet_name : String) :
    List (List String) → Nat → Except String Nat
  | [], _ =>
    .error ("Group name " ++ group_name ++
      " not found in column A of sheet " ++ sheet_name ++ ".")
  | row :: rest, i =>
    match row with
    | [] => headerScan group_name sheet_name rest (i + 1)
    | cell :: _ =>
      if normCell cell = normCell group_name then .ok i
      else headerScan group_name sheet_name rest (i + 1)

/-- Embedding of `find_header_row_by_name`: `values` is the response for
the scanned range `sheet_name!A1:A1000` (hence at most 1000 rows). -/
def find_header_row_by_name (values : List (List String))
    (sheet_name group_name : String) : Except String Nat :=
  headerScan group_name sheet_name values 1

/-- Claim-side predicate: the row has a first cell whose trimmed,
lowercased text equals the trimmed, lowercased group label. -/
def headerMatch (group_name : String) (row : List String) : Bool :=
  match row with
  | [] => false
  | cell :: _ => normCell cell == normCell group_name

/-- One scanning step, phrased through the claim-side predicate. -/
theorem headerScan_cons (group_name sheet_name : String) (row : List String)
    (rest : List (List String)) (i : Nat) :
    headerScan group_name sheet_name (row :: rest) i =
      if headerMatch group_name row = true then .ok i
      else headerScan group_name sheet_name rest (i + 1) := by
  cases row with
  | nil => simp [headerScan, headerMatch]
  | cons cell t =>
    by_cases h : normCell cell = normCell group_name
    · simp [headerScan, headerMatch, h]
    · simp [headerScan, headerMatch, h]

/-- The scan started at `i` returns `i + j` exactly when `j` is the first
(0-based) index of a matching row. -/
theorem headerScan_spec (group_name sheet_name : String) :
    ∀ (l : List (List String)) (i n : Nat),
      headerScan group_name sheet_name l i = .ok n ↔
        ∃ j : Nat, n = i + j ∧
          (∃ r, l.get? j = some r ∧ headerMatch group_name r = true) ∧
          ∀ m, m < j → ∀ r, l.get? m = some r →
            headerMatch group_name r = false
  | [], i, n => by
    simp [headerScan]
  | row :: rest, i, n => by
    rw [headerScan_cons]
    by_cases hrow : headerMatch group_name row = true
    · rw [if_pos hrow]
      constructor
      · intro h
        have hn : n = i := by
          cases h
          rfl
        exact ⟨0, by omega, ⟨row, rfl, hrow⟩,
          fun m hm => absurd hm (Nat.not_lt_zero m)⟩
      · rintro ⟨j, hn, ⟨r, hget, hP⟩, hfirst⟩
        cases j with
        | zero =>
          have hr : r = row := by
            simpa using hget.symm
          subst hn
          rfl
        | succ k =>
          have := hfirst 0 (Nat.succ_pos k) row rfl
          rw [hrow] at this
          exact absurd this (by simp)
    · have hrow' : headerMatch group_name row = false := by
        simpa using hrow
      rw [if_neg hrow]
      rw [headerScan_spec group_name sheet_name rest (i + 1) n]
      constructor
      · rintro ⟨j, hn, ⟨r, hget, hP⟩, hfirst⟩
        refine ⟨j + 1, by omega, ⟨r, by simpa using hget, hP⟩, ?_⟩
        intro m hm r' hr'
        cases m with
        | zero =>
          have : r' = row := by simpa using hr'.symm
          subst this
          exact hrow'
        | succ m2 =>
          exact hfirst m2 (by omega) r' (by simpa using hr')
      · rintro ⟨j, hn, ⟨r, hget, hP⟩, hfirst⟩
        cases j with
        | zero =>
          have hr : r = row := by simpa using hget.symm
          subst hr
          rw [hP] at hrow'
          exact absurd hrow' (by simp)
        | succ k =>
          refine ⟨k, by omega, ⟨r, by simpa using hget, hP⟩, ?_⟩
          intro m hm r' hr'
          exact hfirst (m + 1) (by omega) r' (by simpa using hr')

/-- C1: `find_header_row_by_name` succeeds with `n` exactly when `n` is
the 1-based number of the first row whose first cell matches the group
label under trimmed, lowercased comparison; in particular a sheet whose
column A holds `"Vendor X"` in row 5 (rows 1-4 empty) queried with
`"  vendor x"` resolves the anchor row to 5. -/
theorem find_header_row_first_match (values : List (List String))
    (sheet_name group_name : String) (n : Nat) :
    (find_header_row_by_name values sheet_name group_name = .ok n ↔
      ∃ j : Nat, n = j + 1 ∧
        (∃ r, values.get? j = some r ∧ headerMatch group_name r = true) ∧
        ∀ m, m < j → ∀ r, values.get? m = some r →
          headerMatch group_name r = false) ∧
    find_header_row_by_name [[], [], [], [], ["Vendor X"]]
      "Expenses" "  vendor x" = .ok 5 := by
  constructor
  · rw [find_header_row_by_name, headerScan_spec]
    constructor <;> rintro ⟨j, h1, h2, h3⟩ <;> exact ⟨j, by omega, h2, h3⟩
  · rfl

/-- No matching row anywhere in the scanned list makes the scan raise. -/
theorem headerScan_error (group_name sheet_name : String) :
    ∀ (l : List (List String)) (i : Nat),
      (∀ row ∈ l, headerMatch group_name row = false) →
      headerScan group_name sheet_name l i =
        .error ("Group name " ++ group_name ++
          " not found in column A of sheet " ++ sheet_name ++ ".")
  | [], _, _ => rfl
  | row :: rest, i, h => by
    rw [headerScan_cons, if_neg (by simp [h row (List.mem_cons_self row rest)])]
    exact headerScan_error group_name sheet_name rest (i + 1)
      (fun r hr => h r (List.mem_cons_of_mem row hr))

/-- C7: when no cell of column A within the (at most 1000) scanned rows
matches the group label under trimmed case-insensitive comparison,
`find_header_row_by_name` raises the not-found `ValueError` — it never
returns a default row and never silently succeeds. -/
theorem find_header_row_not_found (values : List (List String))
    (sheet_name group_name : String)
    (hlen : values.length ≤ 1000)
    (hnone : ∀ row ∈ values, headerMatch group_name row = false) :
    find_header_row_by_name values sheet_name group_name =
      .error ("Group name " ++ group_name ++
        " not found in column A of sheet " ++ sheet_name ++ ".") :=
  headerScan_error group_name sheet_name values 1 hnone

/-- Witness for C7 at a concrete two-row sheet with no matching label. -/
theorem find_header_row_not_found_witness :
    find_header_row_by_name [["Alpha"], []] "S" "Beta" =
      .error "Group name Beta not found in column A of sheet S." :=
  find_header_row_not_found [["Alpha"], []] "S" "Beta"
    (by decide) (by decide)

/-! ## append_to_group / set_file_chip (google_sheets_add_grouped_row.py) -/

/-- Unfolding of `splitOnChar` on a cons cell. -/
theorem splitOnChar_cons (sep c : Char) (cs : List Char) :
    splitOnChar sep (c :: cs) =
      if c = sep then [] :: splitOnChar sep cs
      else
        match splitOnChar sep cs with
        | [] => [[c]]
        | l :: ls => (c :: l) :: ls := rfl

/-- A list without the separator splits into itself alone. -/
theorem splitOnChar_of_not_mem (sep : Char) :
    ∀ (xs : List Char), sep ∉ xs → splitOnChar sep xs = [xs]
  | [], _ => rfl
  | c :: cs, h => by
    have hc : ¬(c = sep) := fun he => h (he ▸ List.mem_cons_self c cs)
    rw [splitOnChar_cons, if_neg hc,
      splitOnChar_of_not_mem sep cs (fun hm => h (List.mem_cons_of_mem c hm))]

/-- Splitting at the first separator occurrence. -/
theorem splitOnChar_append (sep : Char) :
    ∀ (xs ys : List Char), sep ∉ xs →
      splitOnChar sep (xs ++ sep :: ys) = xs :: splitOnChar sep ys
  | [], ys, _ => by
    rw [List.nil_append, splitOnChar_cons, if_pos rfl]
  | c :: cs, ys, h => by
    have hc : ¬(c = sep) := fun he => h (he ▸ List.mem_cons_self c cs)
    rw [List.cons_append, splitOnChar_cons, if_neg hc,
      splitOnChar_append sep cs ys (fun hm => h (List.mem_cons_of_mem c hm))]

/-- Sheet metadata entry as consumed by `get_sheet_id`
(`properties.title` and `properties.sheetId`). -/
structure SheetProps where
  title : String
  sheetId : Nat
deriving DecidableEq, Repr

/-- Embedding of `get_sheet_id` from `google_sheets_add_grouped_row.py`:
first sheet whose title equals the requested name, else a raised
`RuntimeError`. -/
def get_sheet_id : List SheetProps → String → Except String Nat
  | [], sheet_name => .error ("Sheet named " ++ sheet_name ++ " not found")
  | s :: rest, sheet_name =>
    if s.title = sheet_name then .ok s.sheetId
    else get_sheet_id rest sheet_name

/-- The single `updateCells` request built by `set_file_chip`: a one-cell
grid range plus the chip placeholder value `"@"` and the rich-link URI. -/
structure ChipCellUpdate where
  sheetId : Nat
  startRowIndex : Nat
  endRowIndex : Nat
  startColumnIndex : Nat
  endColumnIndex : Nat
  chipUri : String
  cellValue : String
deriving DecidableEq, Repr

/-- Embedding of `set_file_chip`: the request replaces the single cell at
0-based `(row_index_0_based, col_index_0_based)` with the value `"@"`
carrying a rich-link chip whose URI is `file_url`. -/
def set_file_chip (sheet_id row_index_0_based col_index_0_based : Nat)
    (file_url : String) : ChipCellUpdate :=
  ⟨sheet_id, row_index_0_based, row_index_0_based + 1,
   col_index_0_based, col_index_0_based + 1, file_url, "@"⟩

/-- Value of a decimal digit string (the characters are assumed digits). -/
def digitsToNat (l : List Char) : Nat :=
  l.foldl (fun acc c => acc * 10 + (c.toNat - 48)) 0

/-- Embedding of Python `int(s)` on the digit-filtered row text: empty or
non-digit input raises `ValueError`. -/
def pyInt (l : List Char) : Option Nat :=
  if l.isEmpty then none
  else if l.all Char.isDigit then some (digitsToNat l)
  else none

/-- Embedding of the post-append tail of `append_to_group`: given the
spreadsheet's sheet metadata, the sheet name, the receipt URL and the
`updatedRange` string returned by the append call, recover the row
number from the range text (`split("!")` unpacking, `split(":")[0]`,
digit filter, `int`), resolve the sheet's numeric identifier by name,
and issue the single-cell rich-link update built by `set_file_chip` at
that row and fixed column index 4. -/
def append_to_group (sheets : List SheetProps) (sheet_name receipt : String)
    (updated_range : String) : Except String ChipCellUpdate :=
  match splitOnChar '!' updated_range.data with
  | [_, a1_range] =>
    match pyInt (((splitOnChar ':' a1_range).headD []).filter Char.isDigit) with
    | none => .error "ValueError: invalid literal for int"
    | some row_number =>
      match get_sheet_id sheets sheet_name with
      | .error e => .error e
      | .ok sheet_id =>
        .ok (set_file_chip sheet_id (row_number - 1) 4 receipt)
  | _ => .error "ValueError: unpack mismatch on updated range"

/-- Lookup of the first title match in the sheet list. -/
theorem get_sheet_id_append (sheet_name : String) (sid : Nat)
    (post : List SheetProps) :
    ∀ (pre : List SheetProps), (∀ s ∈ pre, s.title ≠ sheet_name) →
      get_sheet_id (pre ++ ⟨sheet_name, sid⟩ :: post) sheet_name = .ok sid
  | [], _ => by
    rw [List.nil_append, get_sheet_id, if_pos rfl]
  | s :: pre, h => by
    rw [List.cons_append, get_sheet_id,
      if_neg (h s (List.mem_cons_self s pre))]
    exact get_sheet_id_append sheet_name sid post pre
      (fun x hx => h x (List.mem_cons_of_mem s hx))

/-- C6: when the append response's updated-range string has the form
`<sheet>!A<r>:F<r>`, `append_to_group` parses out the row number `r`,
computes the 0-based grid row `r - 1`, resolves the sheet's numeric
identifier by name, and issues one single-cell update at that row and
fixed column index 4 replacing the cell with the rich-link chip whose
URI is the receipt URL. -/
theorem append_to_group_sets_chip
    (sheets pre post : List SheetProps) (sheet_name receipt : String)
    (sheetPart ds : List Char) (updated_range : String) (r sid : Nat)
    (hsheets : sheets = pre ++ ⟨sheet_name, sid⟩ :: post)
    (hpre : ∀ s ∈ pre, s.title ≠ sheet_name)
    (hrange : updated_range.data =
      sheetPart ++ '!' :: 'A' :: (ds ++ ':' :: 'F' :: ds))
    (hbang : '!' ∉ sheetPart)
    (hne : ds ≠ [])
    (hdig : ∀ c ∈ ds, c.isDigit = true)
    (hval : digitsToNat ds = r)
    (hr : 1 ≤ r) :
    append_to_group sheets sheet_name receipt updated_range =
      .ok ⟨sid, r - 1, r, 4, 5, receipt, "@"⟩ := by
  subst hsheets
  have hgs := get_sheet_id_append sheet_name sid post pre hpre
  have hnotmem : '!' ∉ 'A' :: (ds ++ ':' :: 'F' :: ds) := by
    intro hm
    simp only [List.mem_cons, List.mem_append] at hm
    rcases hm with hm | hm | hm | hm
    · exact absurd hm (by decide)
    · exact absurd (hdig _ hm) (by decide)
    · exact absurd hm (by decide)
    · rcases hm with hm | hm
      · exact absurd hm (by decide)
      · exact absurd (hdig _ hm) (by decide)
  have hsplit1 : splitOnChar '!' updated_range.data =
      [sheetPart, 'A' :: (ds ++ ':' :: 'F' :: ds)] := by
    rw [hrange, splitOnChar_append '!' sheetPart _ hbang,
      splitOnChar_of_not_mem '!' _ hnotmem]
  have hsplit2 : splitOnChar ':' ('A' :: (ds ++ ':' :: 'F' :: ds)) =
      ('A' :: ds) :: splitOnChar ':' ('F' :: ds) := by
    have hshape : 'A' :: (ds ++ ':' :: 'F' :: ds) =
        ('A' :: ds) ++ ':' :: 'F' :: ds := by simp
    rw [hshape, splitOnChar_append]
    intro hm
    simp only [List.mem_cons] at hm
    rcases hm with hm | hm
    · exact absurd hm (by decide)
    · exact absurd (hdig _ hm) (by decide)
  have hfilter : ('A' :: ds).filter Char.isDigit = ds := by
    rw [List.filter_cons_of_neg (by decide)]
    exact List.filter_eq_self.mpr hdig
  have h1 : ds.isEmpty = false := by
    cases ds with
    | nil => exact absurd rfl hne
    | cons a l => rfl
  have hint : pyInt ds = some r := by
    simp [pyInt, h1, List.all_eq_true.mpr hdig, hval]
  simp only [append_to_group, hsplit1, hsplit2, List.headD_cons, hfilter,
    hint, hgs, set_file_chip]
  have harith : r - 1 + 1 = r := by omega
  rw [harith]

/-- Witness for C6: appended range `"2025!A47:F47"` yields one chip
update on sheet id 77 at 0-based row 46, columns 4-5, with the receipt
URL. -/
theorem append_to_group_sets_chip_witness :
    append_to_group [⟨"2025", 77⟩] "2025" "https://drive.google.com/file/d/1W/view"
        "2025!A47:F47" =
      .ok ⟨77, 46, 47, 4, 5, "https://drive.google.com/file/d/1W/view", "@"⟩ :=
  append_to_group_sets_chip [⟨"2025", 77⟩] [] [] "2025"
    "https://drive.google.com/file/d/1W/view" "2025".data ['4', '7']
    "2025!A47:F47" 47 77 rfl (by simp) (by decide) (by decide) (by decide)
    (by decide) (by decide) (by decide)

/-! ## get_drive_service refresh logic (google_drive_auth.py) -/

/-- The credential attributes `get_drive_service` inspects: `valid`,
`expired`, truthiness of `refresh_token`, and `scopes` (possibly
absent). -/
structure Creds where
  valid : Bool
  expired : Bool
  hasRefreshToken : Bool
  scopes : Option (List String)
deriving DecidableEq, Repr

/-- Observable outcome of the credential branch of `get_drive_service`:
whether `creds.refresh(Request())` was attempted and whether the
interactive `run_local_server` flow was run. -/
structure AuthOutcome where
  refreshAttempted : Bool
  ranInteractiveFlow : Bool
deriving DecidableEq, Repr

/-- Embedding of Python `set(a).issubset(set(b))`. -/
def listSubset (a b : List String) : Bool :=
  a.all (fun s => b.contains s)

/-- Embedding of the credential branch of `get_drive_service`: `creds`
is the loaded credential (if any), `refreshResult` the outcome the
`creds.refresh(Request())` call would have (new credential attributes on
success, an exception otherwise).  Mirrors: skip everything when valid;
attempt a refresh only when expired with a refresh token; clear
`need_new_flow` only when the refresh succeeded and the requested scopes
are empty or a subset of the refreshed scopes; a refresh exception is
caught and leaves `need_new_flow` set. -/
def get_drive_service_decision (creds : Option Creds) (scopes : List String)
    (refreshResult : Except Unit Creds) : AuthOutcome :=
  match creds with
  | some c =>
    if c.valid then ⟨false, false⟩
    else if c.expired && c.hasRefreshToken then
      match refreshResult with
      | .ok c2 =>
        if scopes.isEmpty || listSubset scopes (c2.scopes.getD []) then
          ⟨true, false⟩
        else ⟨true, true⟩
      | .error _ => ⟨true, true⟩
    else ⟨false, true⟩
  | none => ⟨false, true⟩

/-- Unfolding of the decision on a loaded credential. -/
theorem get_drive_service_decision_some (c : Creds) (scopes : List String)
    (rr : Except Unit Creds) :
    get_drive_service_decision (some c) scopes rr =
      (if c.valid then ⟨false, false⟩
       else if c.expired && c.hasRefreshToken then
         match rr with
         | .ok c2 =>
           if scopes.isEmpty || listSubset scopes (c2.scopes.getD []) then
             ⟨true, false⟩
           else ⟨true, true⟩
         | .error _ => ⟨true, true⟩
       else ⟨false, true⟩) := rfl

/-- The empty scope list is a subset of anything, so the code's
`not scopes or issubset(...)` guard is equivalent to the plain subset
test. -/
theorem isEmpty_or_listSubset (scopes b : List String) :
    (scopes.isEmpty || listSubset scopes b) = listSubset scopes b := by
  cases scopes with
  | nil => simp [listSubset]
  | cons s rest => simp [List.isEmpty]

/-- C8: on a loaded invalid credential, a refresh is attempted exactly
when the credential is expired and holds a refresh token; the
interactive flow is skipped exactly when that refresh was attempted,
succeeded, and the requested scope set is a subset of the refreshed
credential's granted scopes; a refresh exception never aborts the call —
it always leads to the interactive flow. -/
theorem get_drive_service_refresh_logic (c : Creds) (scopes : List String)
    (rr : Except Unit Creds) (hinvalid : c.valid = false) :
    (get_drive_service_decision (some c) scopes rr).refreshAttempted =
      (c.expired && c.hasRefreshToken) ∧
    ((get_drive_service_decision (some c) scopes rr).ranInteractiveFlow = false ↔
      (c.expired && c.hasRefreshToken) = true ∧
      ∃ c2, rr = .ok c2 ∧ listSubset scopes (c2.scopes.getD []) = true) ∧
    (∀ e : Unit, rr = .error e →
      (get_drive_service_decision (some c) scopes rr).ranInteractiveFlow = true) := by
  rw [get_drive_service_decision_some, if_neg (by simp [hinvalid])]
  by_cases hatt : (c.expired && c.hasRefreshToken) = true
  · rw [if_pos hatt]
    cases rr with
    | ok c2 =>
      dsimp only
      rw [isEmpty_or_listSubset]
      by_cases hsub : listSubset scopes (c2.scopes.getD []) = true
      · rw [if_pos hsub]
        simp [hatt, hsub]
      · rw [if_neg hsub]
        simp [hatt, hsub]
    | error e =>
      dsimp only
      simp [hatt]
  · rw [if_neg hatt]
    have hatt2 : (c.expired && c.hasRefreshToken) = false := by
      simpa using hatt
    simp [hatt2]

/-- Witness for C8: an expired invalid credential with a refresh token,
whose refresh grants a superset of the requested scope, skips the
interactive flow. -/
theorem get_drive_service_refresh_logic_witness :
    (get_drive_service_decision
        (some ⟨false, true, true, some ["a"]⟩) ["a"]
        (.ok ⟨true, false, true, some ["a", "b"]⟩)).refreshAttempted =
      ((true : Bool) && true) ∧
    ((get_drive_service_decision
        (some ⟨false, true, true, some ["a"]⟩) ["a"]
        (.ok ⟨true, false, true, some ["a", "b"]⟩)).ranInteractiveFlow = false ↔
      ((true : Bool) && true) = true ∧
      ∃ c2, (Except.ok (ε := Unit) (⟨true, false, true, some ["a", "b"]⟩ : Creds)) =
          .ok c2 ∧
        listSubset ["a"] (c2.scopes.getD []) = true) ∧
    (∀ e : Unit,
      (Except.ok (ε := Unit) (⟨true, false, true, some ["a", "b"]⟩ : Creds)) =
        .error e →
      (get_drive_service_decision
          (some ⟨false, true, true, some ["a"]⟩) ["a"]
          (.ok ⟨true, false, true, some ["a", "b"]⟩)).ranInteractiveFlow = true) :=
  get_drive_service_refresh_logic ⟨false, true, true, some ["a"]⟩ ["a"]
    (.ok ⟨true, false, true, some ["a", "b"]⟩) rfl
